import Mathlib

/- Shallow embedding of the numerical and geometric core of the SOTS backend:
   src/backend/src/infrastructure/ai/spectral.rs,
   src/backend/src/infrastructure/ai/segmentation.rs,
   src/backend/src/infrastructure/geo/vector_analysis.rs.
   Machine floating-point values are modelled by exact rationals; values
   produced by transcendental functions (sqrt, atan2) live in the reals.
   A non-finite f32/f64 result (NaN or an infinity) is modelled by
   `none : Option _`. -/

set_option maxHeartbeats 1000000

/-- Error kinds from src/backend/src/domain/errors.rs, restricted to the
variants reachable from the embedded core functions. -/
inductive DomainError where
  | GeoProcessing (msg : String)
  | ImageProcessing (msg : String)
deriving DecidableEq

/-- DomainResult from src/backend/src/domain/errors.rs. -/
abbrev DomainResult (α : Type) := Except DomainError α

/-- Modelled from the spec: `GeoPolygon` (the file domain/models.rs is absent
from the source tree; the fields are fixed by the construction site in
segmentation.rs trace_polygon and by every use in vector_analysis.rs):
an ordered list of linear rings of [lon, lat] pairs plus a CRS tag. -/
structure GeoPolygon where
  coordinates : List (List (ℚ × ℚ))
  crs : String
deriving DecidableEq

/-- Modelled from the spec: `IntrusionVector` (domain/models.rs is absent; the
fields are fixed by the construction site in vector_analysis.rs, lines 66-72). -/
structure IntrusionVector where
  direction_degrees : ℝ
  magnitude_meters : ℝ
  velocity_m_per_day : ℝ
  start_point : ℚ × ℚ
  end_point : ℚ × ℚ

/-- RiskLevel enum from vector_analysis.rs lines 274-280. -/
inductive RiskLevel where
  | Low
  | Medium
  | High
  | Critical
deriving DecidableEq

/-- SalinityTrend enum from spectral.rs lines 257-262. -/
inductive SalinityTrend where
  | Increasing
  | Decreasing
  | Stable
deriving DecidableEq

/-- Modelled from the spec: DetectionType (domain/models.rs is absent; the
variants are fixed by the uses in spectral.rs lines 171-177). -/
inductive DetectionType where
  | Peak
  | Valley
  | Normal
deriving DecidableEq

/-- Modelled from the spec: SpectralIndexType (domain/models.rs is absent; the
variants are fixed by the uses in analyze_service.rs). -/
inductive SpectralIndexType where
  | Ndvi
  | Ndsi
  | Srvi
  | RedEdge
deriving DecidableEq

/-- Modelled from the spec: PeakValleyDetection (domain/models.rs is absent;
the fields are fixed by the construction site in spectral.rs lines 179-186;
the wall-clock timestamp field is outside the embedding). -/
structure PeakValleyDetection where
  index_type : SpectralIndexType
  value : ℚ
  detection_type : DetectionType
  baseline_value : ℚ
  deviation_percentage : ℚ
deriving DecidableEq

/-- GeoTransform from segmentation.rs lines 187-195. -/
structure GeoTransform where
  origin_x : ℚ
  origin_y : ℚ
  pixel_width : ℚ
  pixel_height : ℚ
  rotation_x : ℚ
  rotation_y : ℚ
deriving DecidableEq

/-- pixel_to_coord, segmentation.rs lines 209-213. -/
def GeoTransform.pixel_to_coord (g : GeoTransform) (x y : ℚ) : ℚ × ℚ :=
  (g.origin_x + x * g.pixel_width + y * g.rotation_x,
   g.origin_y + x * g.rotation_y + y * g.pixel_height)

/-- coord_to_pixel, segmentation.rs lines 215-219. -/
def GeoTransform.coord_to_pixel (g : GeoTransform) (lon lat : ℚ) : ℚ × ℚ :=
  ((lon - g.origin_x) / g.pixel_width,
   (lat - g.origin_y) / g.pixel_height)

namespace VectorAnalyzer

/-- The risk_level classification branch of predict_affected_area,
vector_analysis.rs lines 124-132, as a function of distance_to_farm_m. -/
def riskLevelOf (distance_to_farm : ℚ) : RiskLevel :=
  if distance_to_farm < 500 then .Critical
  else if distance_to_farm < 1000 then .High
  else if distance_to_farm < 2000 then .Medium
  else .Low

end VectorAnalyzer

/-- SpectralAnalyzer configuration, spectral.rs lines 8-12. -/
structure SpectralAnalyzer where
  peak_threshold : ℚ
  valley_threshold : ℚ
  smoothing_window : ℕ
deriving DecidableEq

namespace SpectralAnalyzer

/-- SpectralAnalyzer::new, spectral.rs lines 21-27. -/
def new : SpectralAnalyzer := ⟨15/100, -15/100, 3⟩

/-- The 1e-6 guard constant used throughout spectral.rs. -/
def eps : ℚ := 1/1000000

/-- A 2D float raster (ndarray Array2) as a list of rows. -/
abbrev Raster := List (List ℚ)

/-- The (rows, cols) shape of a raster, as compared by the shape checks. -/
def shapeOf (r : Raster) : ℕ × ℕ := (r.length, (r.headD []).length)

/-- Per-pixel body of calculate_ndvi, spectral.rs lines 42-52. -/
def ndviPixel (nir_val red_val : ℚ) : ℚ :=
  if eps < |nir_val + red_val| then (nir_val - red_val) / (nir_val + red_val)
  else 0

/-- Per-pixel body of calculate_ndsi, spectral.rs lines 64-74. -/
def ndsiPixel (swir_val green_val : ℚ) : ℚ :=
  if eps < |swir_val + green_val| then (green_val - swir_val) / (swir_val + green_val)
  else 0

/-- Per-pixel body of calculate_red_edge_index, spectral.rs lines 111-121. -/
def reiPixel (re_val red_val : ℚ) : ℚ :=
  if eps < |re_val + red_val| then (re_val - red_val) / (re_val + red_val)
  else 0

/-- calculate_ndvi, spectral.rs lines 35-55. -/
def calculate_ndvi (nir red : Raster) : DomainResult Raster :=
  if shapeOf nir = shapeOf red then
    .ok (List.zipWith (List.zipWith ndviPixel) nir red)
  else
    .error (.ImageProcessing "NIR and Red bands must have same shape")

/-- calculate_ndsi, spectral.rs lines 57-77. -/
def calculate_ndsi (swir green : Raster) : DomainResult Raster :=
  if shapeOf swir = shapeOf green then
    .ok (List.zipWith (List.zipWith ndsiPixel) swir green)
  else
    .error (.ImageProcessing "SWIR and Green bands must have same shape")

/-- calculate_red_edge_index, spectral.rs lines 100-124. -/
def calculate_red_edge_index (red_edge red : Raster) : DomainResult Raster :=
  if shapeOf red_edge = shapeOf red then
    .ok (List.zipWith (List.zipWith reiPixel) red_edge red)
  else
    .error (.ImageProcessing "Red Edge and Red bands must have same shape")

/-- mean, spectral.rs lines 137-145 (the pixels of an Array2 as a flat list). -/
def mean (array : List ℚ) : ℚ :=
  if 0 < array.length then array.sum / (array.length : ℚ) else 0

/-- f32 division: a zero denominator yields a non-finite value (NaN or an
infinity), modelled as none. -/
def fdivF (a b : ℚ) : Option ℚ :=
  if b = 0 then none else some (a / b)

/-- The variance computed inside std, spectral.rs line 149: the sum of squared
deviations divided by the length with NO emptiness guard, so an empty array
divides 0.0 by 0.0 and produces NaN (none). -/
def varianceF (array : List ℚ) : Option ℚ :=
  fdivF ((array.map fun x => (x - mean array) ^ 2).sum) (array.length : ℚ)

/-- std, spectral.rs lines 147-151: square root of varianceF; the square root
of NaN is NaN. -/
noncomputable def std (array : List ℚ) : Option ℝ :=
  (varianceF array).map fun v => Real.sqrt (v : ℝ)

/-- The baseline of detect_peak_valley, spectral.rs lines 159-163. -/
def baselineOf (current_value : ℚ) (historical_values : List ℚ) : ℚ :=
  if historical_values = [] then current_value
  else historical_values.sum / (historical_values.length : ℚ)

/-- The guarded deviation of detect_peak_valley, spectral.rs lines 165-169. -/
def deviationOf (current_value baseline : ℚ) : ℚ :=
  if eps < |baseline| then (current_value - baseline) / baseline else 0

/-- detect_peak_valley, spectral.rs lines 153-187 (without the wall-clock
timestamp field). -/
def detect_peak_valley (a : SpectralAnalyzer) (current_value : ℚ)
    (historical_values : List ℚ) (index_type : SpectralIndexType) :
    PeakValleyDetection :=
  let baseline := baselineOf current_value historical_values
  let deviation := deviationOf current_value baseline
  let detection_type :=
    if a.peak_threshold < deviation then DetectionType.Peak
    else if deviation < a.valley_threshold then DetectionType.Valley
    else DetectionType.Normal
  ⟨index_type, current_value, detection_type, baseline, deviation * 100⟩

/-- smooth_series, spectral.rs lines 206-222. -/
def smooth_series (a : SpectralAnalyzer) (series : List ℚ) : List ℚ :=
  if series.length < a.smoothing_window then series
  else
    let half_window := a.smoothing_window / 2
    (List.range series.length).map fun i =>
      let start := i - half_window
      let stop := min (i + half_window + 1) series.length
      ((series.drop start).take (stop - start)).sum / ((stop - start : ℕ) : ℚ)

/-- calculate_slope, spectral.rs lines 224-247: ordinary least squares over
positions 0..n-1, with the 1e-6 denominator guard. -/
def calculate_slope (series : List ℚ) : ℚ :=
  if series.length < 2 then 0
  else
    let n : ℚ := series.length
    let x_mean := (n - 1) / 2
    let y_mean := series.sum / n
    let numerator :=
      (series.enum.map fun p => ((p.1 : ℚ) - x_mean) * (p.2 - y_mean)).sum
    let denominator :=
      (series.enum.map fun p => ((p.1 : ℚ) - x_mean) ^ 2).sum
    if eps < |denominator| then numerator / denominator else 0

/-- analyze_salinity_trend, spectral.rs lines 189-204. -/
def analyze_salinity_trend (a : SpectralAnalyzer) (ndsi_series : List ℚ) :
    SalinityTrend :=
  if ndsi_series.length < 2 then .Stable
  else
    let smoothed := smooth_series a ndsi_series
    let slope := calculate_slope smoothed
    if 2 / 100 < slope then .Increasing
    else if slope < -(2 / 100) then .Decreasing
    else .Stable

end SpectralAnalyzer

/-- The arithmetic mean as worded by the spec. -/
def specMean (xs : List ℚ) : ℚ := xs.sum / (xs.length : ℚ)

/-- The population variance as worded by the spec. -/
def specPopVariance (xs : List ℚ) : ℚ :=
  ((xs.map fun x => (x - specMean xs) ^ 2).sum) / (xs.length : ℚ)

/-- The smoothing step exactly as the claim words it: a centered moving
average of window w, clipped at the series edges to the available neighbors,
applied to EVERY series of length at least 2 (no short-series bypass). -/
def claimSmooth (w : ℕ) (series : List ℚ) : List ℚ :=
  (List.range series.length).map fun i =>
    let start := i - w / 2
    let stop := min (i + w / 2 + 1) series.length
    ((series.drop start).take (stop - start)).sum / ((stop - start : ℕ) : ℚ)

/-- The salinity-trend algorithm exactly as the claim words it: series shorter
than 2 give Stable, every other series is smoothed by the clipped centered
window-3 moving average, then the OLS slope is thresholded at plus or minus
0.02. -/
def claimTrend (series : List ℚ) : SalinityTrend :=
  if series.length < 2 then .Stable
  else
    let slope := SpectralAnalyzer.calculate_slope (claimSmooth 3 series)
    if 2 / 100 < slope then .Increasing
    else if slope < -(2 / 100) then .Decreasing
    else .Stable

/-- The amended salinity-trend description: as claimTrend, except that a
series shorter than the smoothing window (3) is passed to the slope
computation unsmoothed, exactly as the smooth_series bypass does. -/
def amendedTrend (series : List ℚ) : SalinityTrend :=
  if series.length < 2 then .Stable
  else
    let smoothed := if series.length < 3 then series else claimSmooth 3 series
    let slope := SpectralAnalyzer.calculate_slope smoothed
    if 2 / 100 < slope then .Increasing
    else if slope < -(2 / 100) then .Decreasing
    else .Stable

namespace VectorAnalyzer

/-- calculate_weighted_centroid, vector_analysis.rs lines 75-89; a sample is
(x, y, weight) and a zero total weight yields the neutral (0, 0). -/
def calculate_weighted_centroid (points : List (ℚ × ℚ × ℚ)) : ℚ × ℚ :=
  let total_weight := (points.map fun p => p.2.2).sum
  if total_weight = 0 then (0, 0)
  else ((points.map fun p => p.1 * p.2.2).sum / total_weight,
        (points.map fun p => p.2.1 * p.2.2).sum / total_weight)

/-- The f64 atan2 function with range (-pi, pi], modelled by the complex
argument of x + y i. -/
noncomputable def atan2 (y x : ℝ) : ℝ := Complex.arg ⟨x, y⟩

/-- to_degrees, as applied at vector_analysis.rs line 53. -/
noncomputable def toDegrees (r : ℝ) : ℝ := r * (180 / Real.pi)

open Classical in
/-- The direction normalization of vector_analysis.rs lines 54-58: add 360
to a negative angle in degrees. -/
noncomputable def normalizeDeg (d : ℝ) : ℝ := if d < 0 then d + 360 else d

open Classical in
/-- calculate_intrusion_vector, vector_analysis.rs lines 22-73. -/
noncomputable def calculate_intrusion_vector
    (salinity_t1 salinity_t2 : List (ℚ × ℚ × ℚ)) (threshold : ℚ)
    (days_between : ℚ) : Option IntrusionVector :=
  let peak_points_t1 := salinity_t1.filter fun p => threshold < p.2.2
  let peak_points_t2 := salinity_t2.filter fun p => threshold < p.2.2
  if peak_points_t1.isEmpty || peak_points_t2.isEmpty then none
  else
    let centroid_t1 := calculate_weighted_centroid peak_points_t1
    let centroid_t2 := calculate_weighted_centroid peak_points_t2
    let dx := centroid_t2.1 - centroid_t1.1
    let dy := centroid_t2.2 - centroid_t1.2
    let magnitude_degrees : ℝ := Real.sqrt ((dx : ℝ) * dx + (dy : ℝ) * dy)
    let magnitude_meters := magnitude_degrees * 111320
    let direction_normalized := normalizeDeg (toDegrees (atan2 (dy : ℝ) (dx : ℝ)))
    let velocity : ℝ :=
      if 0 < days_between then magnitude_meters / (days_between : ℝ) else 0
    some ⟨direction_normalized, magnitude_meters, velocity, centroid_t1, centroid_t2⟩

/-- polygon_centroid, vector_analysis.rs lines 148-169. The centroid
algorithm of the external geo crate is abstracted as the parameter
geoCentroid; the guard and the vertex-mean fallback are the code's own. -/
def polygon_centroid (geoCentroid : List (ℚ × ℚ) → Option (ℚ × ℚ))
    (polygon : GeoPolygon) : DomainResult (ℚ × ℚ) :=
  if polygon.coordinates = [] ∨ polygon.coordinates.headD [] = [] then
    .error (.GeoProcessing "Empty polygon")
  else
    match geoCentroid (polygon.coordinates.headD []) with
    | some c => .ok c
    | none =>
      .ok (((polygon.coordinates.headD []).map Prod.fst).sum /
             ((polygon.coordinates.headD []).length : ℚ),
           ((polygon.coordinates.headD []).map Prod.snd).sum /
             ((polygon.coordinates.headD []).length : ℚ))

/-- calculate_polygon_area, vector_analysis.rs lines 186-204; the unsigned
shoelace area of the external geo crate is abstracted as the parameter
geoArea, and the guard and unit conversion are the code's own. -/
def calculate_polygon_area (geoArea : List (ℚ × ℚ) → ℚ) (polygon : GeoPolygon) :
    DomainResult ℚ :=
  if polygon.coordinates = [] ∨ (polygon.coordinates.headD []).length < 3 then
    .ok 0
  else
    .ok (geoArea (polygon.coordinates.headD []) * 111320 * 111320 / 10000)

/-- One iteration of the ray-casting loop of point_in_polygon,
vector_analysis.rs lines 247-260, for the edge joining (xi, yi) and (xj, yj)
and the test point (px, py). Rust evaluates the division only when the first
conjunct of the && already holds (short-circuit). -/
def pipStep (px py xi yi xj yj : ℚ) (inside : Bool) : Bool :=
  if (decide (py < yi) != decide (py < yj)) &&
      decide (px < (xj - xi) * (py - yi) / (yj - yi) + xi) then
    !inside
  else inside

/-- The same iteration with the horizontal-edge guard the spec mandates: an
edge with yj = yi is skipped before the crossing division is formed. -/
def pipStepGuarded (px py xi yi xj yj : ℚ) (inside : Bool) : Bool :=
  if yj = yi then inside
  else if (decide (py < yi) != decide (py < yj)) &&
      decide (px < (xj - xi) * (py - yi) / (yj - yi) + xi) then
    !inside
  else inside

/-- point_in_polygon, vector_analysis.rs lines 233-263: ray casting over the
exterior ring; edge i joins coords[i] and its predecessor (j starts at n-1
and follows i afterwards). -/
def point_in_polygon (point : ℚ × ℚ) (polygon : GeoPolygon) : Bool :=
  if polygon.coordinates = [] then false
  else
    let coords := polygon.coordinates.headD []
    let n := coords.length
    if n < 3 then false
    else
      (List.range n).foldl
        (fun inside i =>
          let ci := coords.getD i (0, 0)
          let cj := coords.getD ((i + n - 1) % n) (0, 0)
          pipStep point.1 point.2 ci.1 ci.2 cj.1 cj.2 inside)
        false

/-- point_in_polygon with every horizontal edge explicitly skipped. -/
def point_in_polygon_guarded (point : ℚ × ℚ) (polygon : GeoPolygon) : Bool :=
  if polygon.coordinates = [] then false
  else
    let coords := polygon.coordinates.headD []
    let n := coords.length
    if n < 3 then false
    else
      (List.range n).foldl
        (fun inside i =>
          let ci := coords.getD i (0, 0)
          let cj := coords.getD ((i + n - 1) % n) (0, 0)
          pipStepGuarded point.1 point.2 ci.1 ci.2 cj.1 cj.2 inside)
        false

end VectorAnalyzer

/-- ClassMask, segmentation.rs lines 33-39. -/
structure ClassMask where
  class_id : ℕ
  class_name : String
  mask : List (List Bool)
  confidence : ℚ

namespace SegmentationModel

/-- Mask lookup mask[y][x], false outside the grid. -/
def maskAt (mask : List (List Bool)) (x y : ℕ) : Bool :=
  (mask.getD y []).getD x false

/-- Visited lookup visited[y][x]. Out-of-range cells read as true, keeping the
embedding total; the code never reads visited out of range, because the seed
and every pushed neighbor are bounds-checked against the equally sized mask. -/
def visAt (visited : List (List Bool)) (x y : ℕ) : Bool :=
  (visited.getD y []).getD x true

/-- The assignment visited[y][x] = true. -/
def setVisited (visited : List (List Bool)) (x y : ℕ) : List (List Bool) :=
  visited.set y ((visited.getD y []).set x true)

/-- The number of unvisited cells: the termination measure of the fill. -/
def unvisited (visited : List (List Bool)) : ℕ :=
  (visited.map fun row => row.count false).sum

/-- 4-adjacency of grid pixels. -/
def Adjacent (p q : ℕ × ℕ) : Prop :=
  (p.1 = q.1 ∧ (p.2 = q.2 + 1 ∨ q.2 = p.2 + 1)) ∨
  (p.2 = q.2 ∧ (p.1 = q.1 + 1 ∨ q.1 = p.1 + 1))

/-- The 4-connected reachability relation of the mask: a pixel lies in the
component of source when it is joined to source through true pixels. -/
inductive Reach (mask : List (List Bool)) (source : ℕ × ℕ) : ℕ × ℕ → Prop where
  | refl : maskAt mask source.1 source.2 = true → Reach mask source source
  | step (q r : ℕ × ℕ) : Reach mask source q → Adjacent q r →
      maskAt mask r.1 r.2 = true → Reach mask source r

/-- The neighbor scan of trace_polygon, segmentation.rs lines 156-168: the
offsets (0,-1), (1,0), (0,1), (-1,0), kept when in bounds (the column bound
is the length of row 0, as in the code), true in the mask and unvisited. -/
def pushNeighbors (mask visited : List (List Bool)) (x y : ℕ) : List (ℕ × ℕ) :=
  ([((0 : ℤ), (-1 : ℤ)), (1, 0), (0, 1), (-1, 0)]).filterMap fun d =>
    let nx := (x : ℤ) + d.1
    let ny := (y : ℤ) + d.2
    if 0 ≤ nx ∧ 0 ≤ ny then
      let nxn := nx.toNat
      let nyn := ny.toNat
      if nyn < mask.length ∧ nxn < (mask.getD 0 []).length ∧
          maskAt mask nxn nyn = true ∧ visAt visited nxn nyn = false then
        some (nxn, nyn)
      else none
    else none

theorem count_false_set_lt (row : List Bool) :
    ∀ x : ℕ, row.getD x true = false →
      (row.set x true).count false < row.count false := by
  induction row with
  | nil => intro x hx; simp at hx
  | cons b bs ih =>
    intro x hx
    cases x with
    | zero =>
      simp only [List.getD_cons_zero] at hx
      subst hx
      simp [List.count_cons]
    | succ x =>
      simp only [List.getD_cons_succ] at hx
      have := ih x hx
      cases b <;> simp [List.count_cons] <;> omega

theorem unvisited_set_lt (visited : List (List Bool)) :
    ∀ x y : ℕ, visAt visited x y = false →
      unvisited (setVisited visited x y) < unvisited visited := by
  induction visited with
  | nil => intro x y h; simp [visAt] at h
  | cons r rs ih =>
    intro x y h
    cases y with
    | zero =>
      simp only [visAt, List.getD_cons_zero] at h
      simp only [setVisited, List.getD_cons_zero, List.set_cons_zero, unvisited,
        List.map_cons, List.sum_cons]
      have := count_false_set_lt r x h
      omega
    | succ y =>
      simp only [visAt, List.getD_cons_succ] at h
      have := ih x y h
      simp only [setVisited, List.getD_cons_succ, List.set_cons_succ, unvisited,
        List.map_cons, List.sum_cons] at this ⊢
      omega

/-- The flood-fill loop of trace_polygon, segmentation.rs lines 147-169:
pop the stack, skip visited pixels, mark and collect new pixels, and push
the unvisited true 4-neighbors. The list models the Vec stack with its top
at the head, so the Rust push order appears reversed at the head. -/
def floodFill (mask : List (List Bool)) (visited : List (List Bool))
    (stack : List (ℕ × ℕ)) (acc : List (ℕ × ℕ)) :
    List (List Bool) × List (ℕ × ℕ) :=
  match stack with
  | [] => (visited, acc)
  | (x, y) :: rest =>
    if h : visAt visited x y then floodFill mask visited rest acc
    else
      let visited2 := setVisited visited x y
      floodFill mask visited2 ((pushNeighbors mask visited2 x y).reverse ++ rest)
        (acc ++ [(x, y)])
termination_by (unvisited visited, stack.length)
decreasing_by
  · exact Prod.Lex.right _ (Nat.lt_succ_self _)
  · exact Prod.Lex.left _ _
      (unvisited_set_lt visited x y (Bool.not_eq_true _ ▸ eq_false_of_ne_true h))

/-- trace_polygon, segmentation.rs lines 136-180: flood fill from the seed,
map each collected pixel to geographic coordinates in collection order, and
close and emit the ring when at least 3 points were collected. Returns the
updated visited grid (&mut in Rust) next to the optional polygon. -/
def trace_polygon (mask : List (List Bool)) (visited : List (List Bool))
    (start_x start_y : ℕ) (geo_transform : GeoTransform) :
    List (List Bool) × Option GeoPolygon :=
  let r := floodFill mask visited [(start_x, start_y)] []
  let boundary := r.2.map fun p => geo_transform.pixel_to_coord (p.1 : ℚ) (p.2 : ℚ)
  if 3 ≤ boundary.length then
    (r.1, some ⟨[boundary ++ [boundary.headD (0, 0)]], "EPSG:4326"⟩)
  else (r.1, none)

/-- The scan loop of mask_to_polygons, segmentation.rs lines 123-131: trace
every true, unvisited pixel of the row-major cell list. -/
def polyLoop (mask : List (List Bool)) (geo_transform : GeoTransform) :
    List (ℕ × ℕ) → List (List Bool) → List GeoPolygon → List GeoPolygon
  | [], _, acc => acc
  | (x, y) :: rest, visited, acc =>
    if maskAt mask x y = true ∧ visAt visited x y = false then
      match trace_polygon mask visited x y geo_transform with
      | (visited2, some polygon) =>
        polyLoop mask geo_transform rest visited2 (acc ++ [polygon])
      | (visited2, none) => polyLoop mask geo_transform rest visited2 acc
    else polyLoop mask geo_transform rest visited acc

/-- mask_to_polygons, segmentation.rs lines 116-134. -/
def mask_to_polygons (mask : ClassMask) (geo_transform : GeoTransform) :
    List GeoPolygon :=
  let height := mask.mask.length
  let width := (mask.mask.headD []).length
  let cells :=
    (List.range height).flatMap fun y => (List.range width).map fun x => (x, y)
  polyLoop mask.mask geo_transform cells
    (List.replicate height (List.replicate width false)) []

end SegmentationModel

/-- C1: in predict_affected_area the risk level is Critical for distance
below 500 m, High below 1000 m, Medium below 2000 m, Low otherwise, with
strict upper boundaries: exactly 500 gives High, exactly 1000 gives Medium,
exactly 2000 gives Low. -/
theorem C1_risk_level_bands :
    (∀ d : ℚ,
      (VectorAnalyzer.riskLevelOf d = .Critical ↔ d < 500) ∧
      (VectorAnalyzer.riskLevelOf d = .High ↔ 500 ≤ d ∧ d < 1000) ∧
      (VectorAnalyzer.riskLevelOf d = .Medium ↔ 1000 ≤ d ∧ d < 2000) ∧
      (VectorAnalyzer.riskLevelOf d = .Low ↔ 2000 ≤ d)) ∧
    VectorAnalyzer.riskLevelOf 500 = .High ∧
    VectorAnalyzer.riskLevelOf 1000 = .Medium ∧
    VectorAnalyzer.riskLevelOf 2000 = .Low := by
  refine ⟨fun d => ?_, by decide, by decide, by decide⟩
  unfold VectorAnalyzer.riskLevelOf
  split_ifs with h1 h2 h3 <;>
    refine ⟨?_, ?_, ?_, ?_⟩ <;> simp_all <;>
    first
      | linarith
      | (intro _; linarith)

/-- C9: with zero rotation terms and non-zero pixel sizes, coord_to_pixel is a
left inverse of pixel_to_coord (exact arithmetic). -/
theorem C9_geotransform_inverse (g : GeoTransform) (x y : ℚ)
    (hrx : g.rotation_x = 0) (hry : g.rotation_y = 0)
    (hpw : g.pixel_width ≠ 0) (hph : g.pixel_height ≠ 0) :
    g.coord_to_pixel (g.pixel_to_coord x y).1 (g.pixel_to_coord x y).2 = (x, y) := by
  simp only [GeoTransform.pixel_to_coord, GeoTransform.coord_to_pixel, hrx, hry,
    mul_zero, add_zero, zero_mul, Prod.mk.injEq]
  constructor <;> field_simp

/-- Witness for C9 at a concrete transform and pixel. -/
theorem C9_geotransform_inverse_witness :
    ((⟨10, 20, 2, -2, 0, 0⟩ : GeoTransform).rotation_x = 0) ∧
    ((⟨10, 20, 2, -2, 0, 0⟩ : GeoTransform).rotation_y = 0) ∧
    ((⟨10, 20, 2, -2, 0, 0⟩ : GeoTransform).pixel_width ≠ 0) ∧
    ((⟨10, 20, 2, -2, 0, 0⟩ : GeoTransform).pixel_height ≠ 0) ∧
    (⟨10, 20, 2, -2, 0, 0⟩ : GeoTransform).coord_to_pixel
      ((⟨10, 20, 2, -2, 0, 0⟩ : GeoTransform).pixel_to_coord 3 4).1
      ((⟨10, 20, 2, -2, 0, 0⟩ : GeoTransform).pixel_to_coord 3 4).2 = (3, 4) :=
  ⟨rfl, rfl, by decide, by decide,
   C9_geotransform_inverse ⟨10, 20, 2, -2, 0, 0⟩ 3 4 rfl rfl (by decide) (by decide)⟩

theorem eps_pos : (0 : ℚ) < SpectralAnalyzer.eps := by
  norm_num [SpectralAnalyzer.eps]

/-- C2: whenever the absolute value of a denominator is below eps = 1e-6 (the
band sum of an NDVI, NDSI or Red-Edge pixel, or the baseline of the deviation
in detect_peak_valley), the computed value is exactly 0; the embedded
computations are total rational functions, so the result is a defined numeric
value (never NaN or an infinity) and no error is propagated. -/
theorem C2_eps_guard_zero :
    (∀ nir red : ℚ, |nir + red| < SpectralAnalyzer.eps →
      SpectralAnalyzer.ndviPixel nir red = 0) ∧
    (∀ swir green : ℚ, |swir + green| < SpectralAnalyzer.eps →
      SpectralAnalyzer.ndsiPixel swir green = 0) ∧
    (∀ re red : ℚ, |re + red| < SpectralAnalyzer.eps →
      SpectralAnalyzer.reiPixel re red = 0) ∧
    (∀ (a : SpectralAnalyzer) (current : ℚ) (hist : List ℚ)
        (it : SpectralIndexType),
      |SpectralAnalyzer.baselineOf current hist| < SpectralAnalyzer.eps →
      (SpectralAnalyzer.detect_peak_valley a current hist it).deviation_percentage
        = 0) := by
  refine ⟨fun nir red h => ?_, fun swir green h => ?_, fun re red h => ?_,
    fun a current hist it h => ?_⟩
  · simp [SpectralAnalyzer.ndviPixel, not_lt.mpr h.le]
  · simp [SpectralAnalyzer.ndsiPixel, not_lt.mpr h.le]
  · simp [SpectralAnalyzer.reiPixel, not_lt.mpr h.le]
  · simp [SpectralAnalyzer.detect_peak_valley, SpectralAnalyzer.deviationOf,
      not_lt.mpr h.le]

/-- Witness for C2 at concrete zero inputs. -/
theorem C2_eps_guard_zero_witness :
    (|(0 : ℚ) + 0| < SpectralAnalyzer.eps ∧ SpectralAnalyzer.ndviPixel 0 0 = 0) ∧
    (|(0 : ℚ) + 0| < SpectralAnalyzer.eps ∧ SpectralAnalyzer.ndsiPixel 0 0 = 0) ∧
    (|(0 : ℚ) + 0| < SpectralAnalyzer.eps ∧ SpectralAnalyzer.reiPixel 0 0 = 0) ∧
    (|SpectralAnalyzer.baselineOf 0 []| < SpectralAnalyzer.eps ∧
      (SpectralAnalyzer.detect_peak_valley SpectralAnalyzer.new 0 []
        .Ndvi).deviation_percentage = 0) := by
  have hz : |(0 : ℚ) + 0| < SpectralAnalyzer.eps := by simpa using eps_pos
  have hb : |SpectralAnalyzer.baselineOf 0 []| < SpectralAnalyzer.eps := by
    simpa [SpectralAnalyzer.baselineOf] using eps_pos
  exact ⟨⟨hz, C2_eps_guard_zero.1 0 0 hz⟩, ⟨hz, C2_eps_guard_zero.2.1 0 0 hz⟩,
    ⟨hz, C2_eps_guard_zero.2.2.1 0 0 hz⟩,
    ⟨hb, C2_eps_guard_zero.2.2.2 SpectralAnalyzer.new 0 [] .Ndvi hb⟩⟩

/-- C3 counterexample: on the empty raster the std computation divides 0.0 by
0.0 without a guard, so std is NaN (none), not 0 as the claim states. -/
theorem C3_empty_std_counterexample :
    SpectralAnalyzer.std [] = none ∧ SpectralAnalyzer.std [] ≠ some 0 := by
  constructor <;>
    simp [SpectralAnalyzer.std, SpectralAnalyzer.varianceF, SpectralAnalyzer.fdivF]

/-- C3 amended: mean is the simple arithmetic mean and std is the square root
of the population variance over all pixels; the empty raster yields mean 0,
but its std is NaN (modelled as none), not 0. -/
theorem C3_mean_std_amended :
    SpectralAnalyzer.mean [] = 0 ∧
    (∀ xs : List ℚ, xs ≠ [] → SpectralAnalyzer.mean xs = specMean xs) ∧
    (∀ xs : List ℚ, xs ≠ [] →
      SpectralAnalyzer.std xs = some (Real.sqrt (specPopVariance xs))) ∧
    SpectralAnalyzer.std [] = none := by
  refine ⟨by simp [SpectralAnalyzer.mean], fun xs hxs => ?_, fun xs hxs => ?_,
    by simp [SpectralAnalyzer.std, SpectralAnalyzer.varianceF, SpectralAnalyzer.fdivF]⟩
  · have h : 0 < xs.length := List.length_pos.mpr hxs
    simp [SpectralAnalyzer.mean, specMean, h]
  · have h : 0 < xs.length := List.length_pos.mpr hxs
    have hlen : (xs.length : ℚ) ≠ 0 := by exact_mod_cast h.ne'
    have hm : SpectralAnalyzer.mean xs = specMean xs := by
      simp [SpectralAnalyzer.mean, specMean, h]
    simp [SpectralAnalyzer.std, SpectralAnalyzer.varianceF, SpectralAnalyzer.fdivF,
      hlen, specPopVariance, hm]

/-- Witness for C3 amended at the concrete raster [1, 3]. -/
theorem C3_mean_std_amended_witness :
    (([1, 3] : List ℚ) ≠ []) ∧
    SpectralAnalyzer.mean [1, 3] = specMean [1, 3] ∧
    SpectralAnalyzer.std [1, 3] = some (Real.sqrt (specPopVariance [1, 3])) :=
  ⟨by simp, C3_mean_std_amended.2.1 [1, 3] (by simp),
    C3_mean_std_amended.2.2.1 [1, 3] (by simp)⟩

theorem exists_of_mem_zipWith {α β γ : Type} {f : α → β → γ} :
    ∀ {l1 : List α} {l2 : List β} {c : γ}, c ∈ List.zipWith f l1 l2 →
      ∃ a ∈ l1, ∃ b ∈ l2, c = f a b := by
  intro l1
  induction l1 with
  | nil => intro l2 c hc; simp at hc
  | cons x xs ih =>
    intro l2 c hc
    cases l2 with
    | nil => simp at hc
    | cons y ys =>
      simp only [List.zipWith_cons_cons, List.mem_cons] at hc
      rcases hc with h | h
      · exact ⟨x, by simp, y, by simp, h⟩
      · obtain ⟨a, ha, b, hb, rfl⟩ := ih h
        exact ⟨a, by simp [ha], b, by simp [hb], rfl⟩

theorem normDiff_div_bounds (num den : ℚ) (hnum : |num| ≤ den) (hden : 0 < den) :
    -1 ≤ num / den ∧ num / den ≤ 1 := by
  have h1 : |num / den| ≤ 1 := by
    rw [abs_div, abs_of_pos hden]
    exact (div_le_one hden).mpr hnum
  exact abs_le.mp h1

theorem ndviPixel_bounds (a b : ℚ) (ha : 0 ≤ a) (hb : 0 ≤ b) :
    -1 ≤ SpectralAnalyzer.ndviPixel a b ∧ SpectralAnalyzer.ndviPixel a b ≤ 1 := by
  unfold SpectralAnalyzer.ndviPixel
  split_ifs with h
  · have habs : |a + b| = a + b := abs_of_nonneg (by linarith)
    have hden : 0 < a + b := by
      have := eps_pos
      rw [habs] at h
      linarith
    exact normDiff_div_bounds (a - b) (a + b)
      (abs_le.mpr ⟨by linarith, by linarith⟩) hden
  · norm_num

theorem ndsiPixel_bounds (a b : ℚ) (ha : 0 ≤ a) (hb : 0 ≤ b) :
    -1 ≤ SpectralAnalyzer.ndsiPixel a b ∧ SpectralAnalyzer.ndsiPixel a b ≤ 1 := by
  unfold SpectralAnalyzer.ndsiPixel
  split_ifs with h
  · have habs : |a + b| = a + b := abs_of_nonneg (by linarith)
    have hden : 0 < a + b := by
      have := eps_pos
      rw [habs] at h
      linarith
    exact normDiff_div_bounds (b - a) (a + b)
      (abs_le.mpr ⟨by linarith, by linarith⟩) hden
  · norm_num

theorem reiPixel_bounds (a b : ℚ) (ha : 0 ≤ a) (hb : 0 ≤ b) :
    -1 ≤ SpectralAnalyzer.reiPixel a b ∧ SpectralAnalyzer.reiPixel a b ≤ 1 := by
  unfold SpectralAnalyzer.reiPixel
  split_ifs with h
  · have habs : |a + b| = a + b := abs_of_nonneg (by linarith)
    have hden : 0 < a + b := by
      have := eps_pos
      rw [habs] at h
      linarith
    exact normDiff_div_bounds (a - b) (a + b)
      (abs_le.mpr ⟨by linarith, by linarith⟩) hden
  · norm_num

theorem zip_pixel_bounds {pixel : ℚ → ℚ → ℚ}
    (hpix : ∀ a b, 0 ≤ a → 0 ≤ b → -1 ≤ pixel a b ∧ pixel a b ≤ 1)
    (x y : SpectralAnalyzer.Raster)
    (hx : ∀ row ∈ x, ∀ v ∈ row, 0 ≤ v ∧ v ≤ 1)
    (hy : ∀ row ∈ y, ∀ v ∈ row, 0 ≤ v ∧ v ≤ 1) :
    ∀ row ∈ List.zipWith (List.zipWith pixel) x y, ∀ v ∈ row,
      -1 ≤ v ∧ v ≤ 1 := by
  intro row hrow v hv
  obtain ⟨r1, hr1, r2, hr2, rfl⟩ := exists_of_mem_zipWith hrow
  obtain ⟨a, ha, b, hb, rfl⟩ := exists_of_mem_zipWith hv
  exact hpix a b (hx r1 hr1 a ha).1 (hy r2 hr2 b hb).1

/-- C4: for every pair of equal-shaped input rasters with all values in [0,1],
every pixel of the NDVI, NDSI and Red-Edge index outputs lies in [-1,1]. -/
theorem C4_index_ranges :
    (∀ nir red : SpectralAnalyzer.Raster,
      (∀ row ∈ nir, ∀ v ∈ row, 0 ≤ v ∧ v ≤ 1) →
      (∀ row ∈ red, ∀ v ∈ row, 0 ≤ v ∧ v ≤ 1) →
      ∀ out, SpectralAnalyzer.calculate_ndvi nir red = .ok out →
        ∀ row ∈ out, ∀ v ∈ row, -1 ≤ v ∧ v ≤ 1) ∧
    (∀ swir green : SpectralAnalyzer.Raster,
      (∀ row ∈ swir, ∀ v ∈ row, 0 ≤ v ∧ v ≤ 1) →
      (∀ row ∈ green, ∀ v ∈ row, 0 ≤ v ∧ v ≤ 1) →
      ∀ out, SpectralAnalyzer.calculate_ndsi swir green = .ok out →
        ∀ row ∈ out, ∀ v ∈ row, -1 ≤ v ∧ v ≤ 1) ∧
    (∀ red_edge red : SpectralAnalyzer.Raster,
      (∀ row ∈ red_edge, ∀ v ∈ row, 0 ≤ v ∧ v ≤ 1) →
      (∀ row ∈ red, ∀ v ∈ row, 0 ≤ v ∧ v ≤ 1) →
      ∀ out, SpectralAnalyzer.calculate_red_edge_index red_edge red = .ok out →
        ∀ row ∈ out, ∀ v ∈ row, -1 ≤ v ∧ v ≤ 1) := by
  refine ⟨fun x y hx hy out hok => ?_, fun x y hx hy out hok => ?_,
    fun x y hx hy out hok => ?_⟩
  · unfold SpectralAnalyzer.calculate_ndvi at hok
    split_ifs at hok with hs
    injection hok with hok
    subst hok
    exact zip_pixel_bounds ndviPixel_bounds x y hx hy
  · unfold SpectralAnalyzer.calculate_ndsi at hok
    split_ifs at hok with hs
    injection hok with hok
    subst hok
    exact zip_pixel_bounds ndsiPixel_bounds x y hx hy
  · unfold SpectralAnalyzer.calculate_red_edge_index at hok
    split_ifs at hok with hs
    injection hok with hok
    subst hok
    exact zip_pixel_bounds reiPixel_bounds x y hx hy

/-- Witness for C4 at concrete one-row rasters. -/
theorem C4_index_ranges_witness :
    (∀ row ∈ ([[1, 0]] : SpectralAnalyzer.Raster), ∀ v ∈ row, 0 ≤ v ∧ v ≤ 1) ∧
    (∀ row ∈ ([[0, 1]] : SpectralAnalyzer.Raster), ∀ v ∈ row, 0 ≤ v ∧ v ≤ 1) ∧
    (∀ out, SpectralAnalyzer.calculate_ndvi [[1, 0]] [[0, 1]] = .ok out →
      ∀ row ∈ out, ∀ v ∈ row, -1 ≤ v ∧ v ≤ 1) := by
  have h1 : ∀ row ∈ ([[1, 0]] : SpectralAnalyzer.Raster), ∀ v ∈ row,
      0 ≤ v ∧ v ≤ 1 := by
    intro row hrow v hv
    fin_cases hrow <;> fin_cases hv <;> norm_num
  have h2 : ∀ row ∈ ([[0, 1]] : SpectralAnalyzer.Raster), ∀ v ∈ row,
      0 ≤ v ∧ v ≤ 1 := by
    intro row hrow v hv
    fin_cases hrow <;> fin_cases hv <;> norm_num
  exact ⟨h1, h2, C4_index_ranges.1 [[1, 0]] [[0, 1]] h1 h2⟩

theorem pipStep_eq_guarded (px py xi yi xj yj : ℚ) (inside : Bool) :
    VectorAnalyzer.pipStep px py xi yi xj yj inside =
      VectorAnalyzer.pipStepGuarded px py xi yi xj yj inside := by
  unfold VectorAnalyzer.pipStep VectorAnalyzer.pipStepGuarded
  by_cases h : yj = yi
  · subst h
    simp
  · simp [h]

/-- C10: the ray-casting test of point_in_polygon skips every horizontal edge:
for yi = yj the xor of the two strict comparisons is false, Rust's &&
short-circuits, and the edge leaves the crossing state unchanged, so the
crossing division is never evaluated with a zero divisor; consequently the
function agrees everywhere with the variant that guards yj = yi explicitly
before forming the division. -/
theorem C10_horizontal_edges_skipped :
    (∀ (px py xi xj y : ℚ) (inside : Bool),
      VectorAnalyzer.pipStep px py xi y xj y inside = inside) ∧
    (∀ (point : ℚ × ℚ) (polygon : GeoPolygon),
      VectorAnalyzer.point_in_polygon point polygon =
        VectorAnalyzer.point_in_polygon_guarded point polygon) := by
  constructor
  · intro px py xi xj y inside
    unfold VectorAnalyzer.pipStep
    simp
  · intro point polygon
    unfold VectorAnalyzer.point_in_polygon VectorAnalyzer.point_in_polygon_guarded
    simp only [pipStep_eq_guarded]

/-- C6 counterexample: for the length-2 series [0, 1] the code bypasses
smoothing (the series is shorter than the window 3) and returns Increasing,
while the algorithm exactly as the claim words it smooths [0, 1] into
[1/2, 1/2] and returns Stable. -/
theorem C6_short_series_counterexample :
    SpectralAnalyzer.analyze_salinity_trend SpectralAnalyzer.new [0, 1] =
      .Increasing ∧
    claimTrend [0, 1] = .Stable := by
  constructor
  · norm_num [SpectralAnalyzer.analyze_salinity_trend,
      SpectralAnalyzer.smooth_series, SpectralAnalyzer.calculate_slope,
      SpectralAnalyzer.new, SpectralAnalyzer.eps, List.enum, List.enumFrom,
      abs_of_pos]
  · norm_num [claimTrend, claimSmooth, SpectralAnalyzer.calculate_slope,
      SpectralAnalyzer.eps, List.enum, List.enumFrom, List.range_succ,
      abs_of_pos]

/-- C6 amended: analyze_salinity_trend returns Stable for series shorter than
2; a series shorter than the smoothing window (3) is passed to the slope
computation unsmoothed, a longer one is smoothed by the clipped centered
window-3 moving average; the OLS slope of the result over positions 0..n-1 is
thresholded at 0.02 (Increasing above, Decreasing below -0.02, else
Stable). -/
theorem C6_trend_amended (s : List ℚ) :
    SpectralAnalyzer.analyze_salinity_trend SpectralAnalyzer.new s =
      amendedTrend s := by
  unfold SpectralAnalyzer.analyze_salinity_trend amendedTrend
    SpectralAnalyzer.smooth_series claimSmooth SpectralAnalyzer.new
  norm_num

/-- C7 counterexample: a polygon whose exterior ring has only 2 vertices has
fewer than 3 usable vertices, yet calculate_polygon_area returns the numeric
result Ok 0 and no error of any kind, refuting the claimed DegenerateGeometry
failure. -/
theorem C7_degenerate_area_counterexample :
    VectorAnalyzer.calculate_polygon_area (fun _ => 0)
      ⟨[[(0, 0), (1, 1)]], "EPSG:4326"⟩ = .ok 0 ∧
    ¬ ∃ e, VectorAnalyzer.calculate_polygon_area (fun _ => 0)
      ⟨[[(0, 0), (1, 1)]], "EPSG:4326"⟩ = .error e := by
  constructor
  · simp [VectorAnalyzer.calculate_polygon_area]
  · simp [VectorAnalyzer.calculate_polygon_area]

/-- C7 amended: calculate_polygon_area returns Ok 0 (a numeric result, not an
error) for a polygon with no rings or an exterior ring of fewer than 3
vertices; polygon_centroid fails, with the GeoProcessing kind (the code has
no DegenerateGeometry kind), exactly when the coordinate list or the
exterior ring is empty, whatever the external centroid algorithm does, so a
ring of 1 or 2 vertices does not error either. -/
theorem C7_degenerate_geometry_amended :
    (∀ (geoArea : List (ℚ × ℚ) → ℚ) (p : GeoPolygon),
      p.coordinates = [] ∨ (p.coordinates.headD []).length < 3 →
      VectorAnalyzer.calculate_polygon_area geoArea p = .ok 0) ∧
    (∀ (geoCentroid : List (ℚ × ℚ) → Option (ℚ × ℚ)) (p : GeoPolygon),
      (∃ e, VectorAnalyzer.polygon_centroid geoCentroid p = .error e) ↔
        (p.coordinates = [] ∨ p.coordinates.headD [] = [])) := by
  constructor
  · intro geoArea p h
    unfold VectorAnalyzer.calculate_polygon_area
    rw [if_pos h]
  · intro geoCentroid p
    constructor
    · intro hex
      by_contra hc
      obtain ⟨e, he⟩ := hex
      unfold VectorAnalyzer.polygon_centroid at he
      rw [if_neg hc] at he
      rcases hg : geoCentroid (p.coordinates.headD []) with _ | c <;>
        rw [hg] at he <;> exact Except.noConfusion he
    · intro hc
      refine ⟨.GeoProcessing "Empty polygon", ?_⟩
      unfold VectorAnalyzer.polygon_centroid
      rw [if_pos hc]

/-- Witness for C7 amended at a concrete 2-vertex ring. -/
theorem C7_degenerate_geometry_amended_witness :
    ((⟨[[(0, 0), (1, 1)]], "EPSG:4326"⟩ : GeoPolygon).coordinates = [] ∨
      ((⟨[[(0, 0), (1, 1)]], "EPSG:4326"⟩ : GeoPolygon).coordinates.headD
        []).length < 3) ∧
    VectorAnalyzer.calculate_polygon_area (fun _ => 1)
      ⟨[[(0, 0), (1, 1)]], "EPSG:4326"⟩ = .ok 0 := by
  have h : (⟨[[(0, 0), (1, 1)]], "EPSG:4326"⟩ : GeoPolygon).coordinates = [] ∨
      ((⟨[[(0, 0), (1, 1)]], "EPSG:4326"⟩ : GeoPolygon).coordinates.headD
        []).length < 3 := Or.inr (by simp)
  exact ⟨h, C7_degenerate_geometry_amended.1 (fun _ => 1) _ h⟩

theorem normalizeDeg_mem_Ico (d : ℝ) (h1 : -180 < d) (h2 : d ≤ 180) :
    0 ≤ VectorAnalyzer.normalizeDeg d ∧ VectorAnalyzer.normalizeDeg d < 360 := by
  unfold VectorAnalyzer.normalizeDeg
  split_ifs with h
  · constructor <;> linarith
  · constructor <;> linarith

theorem toDegrees_atan2_bounds (y x : ℝ) :
    -180 < VectorAnalyzer.toDegrees (VectorAnalyzer.atan2 y x) ∧
    VectorAnalyzer.toDegrees (VectorAnalyzer.atan2 y x) ≤ 180 := by
  have hpi := Real.pi_pos
  have hne := Real.pi_ne_zero
  obtain ⟨hlo, hhi⟩ := Set.mem_Ioc.mp (Complex.arg_mem_Ioc ⟨x, y⟩)
  unfold VectorAnalyzer.toDegrees VectorAnalyzer.atan2
  have hpos : (0 : ℝ) < 180 / Real.pi := by positivity
  constructor
  · have hx := mul_lt_mul_of_pos_right hlo hpos
    have he : -Real.pi * (180 / Real.pi) = -180 := by
      field_simp
      ring
    linarith
  · have hx := mul_le_mul_of_nonneg_right hhi hpos.le
    have he : Real.pi * (180 / Real.pi) = 180 := by field_simp
    linarith

/-- C5: every intrusion vector that calculate_intrusion_vector produces
stores as direction_degrees exactly atan2(dy, dx) of its own displacement
(end_point minus start_point) converted to degrees and normalized by adding
360 when negative, and that stored direction always satisfies
0 &le; direction &lt; 360. -/
theorem C5_direction_in_range (t1 t2 : List (ℚ × ℚ × ℚ)) (threshold days : ℚ) :
    (VectorAnalyzer.calculate_intrusion_vector t1 t2 threshold days).elim True
      fun v =>
        v.direction_degrees =
          VectorAnalyzer.normalizeDeg (VectorAnalyzer.toDegrees
            (VectorAnalyzer.atan2 ((v.end_point.2 - v.start_point.2 : ℚ) : ℝ)
              ((v.end_point.1 - v.start_point.1 : ℚ) : ℝ))) ∧
        0 ≤ v.direction_degrees ∧ v.direction_degrees < 360 := by
  unfold VectorAnalyzer.calculate_intrusion_vector
  dsimp only
  by_cases h : ((t1.filter fun p => decide (threshold < p.2.2)).isEmpty ||
      (t2.filter fun p => decide (threshold < p.2.2)).isEmpty) = true
  · rw [if_pos h]
    exact trivial
  · rw [if_neg h]
    refine ⟨rfl, ?_, ?_⟩
    · exact (normalizeDeg_mem_Ico _ (toDegrees_atan2_bounds _ _).1
        (toDegrees_atan2_bounds _ _).2).1
    · exact (normalizeDeg_mem_Ico _ (toDegrees_atan2_bounds _ _).1
        (toDegrees_atan2_bounds _ _).2).2

theorem getD_set_main {α : Type} (l : List α) :
    ∀ (n : ℕ) (v d : α), (l.set n v).getD n d = if n < l.length then v else d := by
  induction l with
  | nil => intro n v d; simp
  | cons a as ih =>
    intro n v d
    cases n with
    | zero => simp
    | succ n => simpa using ih n v d

theorem getD_set_of_ne {α : Type} (l : List α) :
    ∀ (n m : ℕ) (v d : α), m ≠ n → (l.set n v).getD m d = l.getD m d := by
  induction l with
  | nil => intro n m v d _; simp
  | cons a as ih =>
    intro n m v d h
    cases n with
    | zero =>
      cases m with
      | zero => exact absurd rfl h
      | succ m => simp
    | succ n =>
      cases m with
      | zero => simp
      | succ m => simpa using ih n m v d (by omega)

theorem visAt_setVisited_self (visited : List (List Bool)) (x y : ℕ) :
    SegmentationModel.visAt (SegmentationModel.setVisited visited x y) x y
      = true := by
  unfold SegmentationModel.visAt SegmentationModel.setVisited
  rw [getD_set_main]
  split_ifs with h
  · rw [getD_set_main]
    split_ifs <;> rfl
  · simp

theorem visAt_setVisited_mono (visited : List (List Bool)) (x y a b : ℕ)
    (h : SegmentationModel.visAt visited a b = true) :
    SegmentationModel.visAt (SegmentationModel.setVisited visited x y) a b
      = true := by
  unfold SegmentationModel.visAt SegmentationModel.setVisited at *
  by_cases hb : b = y
  · subst hb
    rw [getD_set_main]
    split_ifs with hlen
    · by_cases ha : a = x
      · subst ha
        rw [getD_set_main]
        split_ifs <;> rfl
      · rw [getD_set_of_ne _ _ _ _ _ ha]
        exact h
    · have hd : visited.getD b [] = [] := List.getD_eq_default _ _ (by omega)
      rw [hd] at h
      exact h
  · rw [getD_set_of_ne _ _ _ _ _ hb]
    exact h

theorem pushNeighbors_mem (mask visited : List (List Bool)) (x y : ℕ)
    (q : ℕ × ℕ) (hq : q ∈ SegmentationModel.pushNeighbors mask visited x y) :
    SegmentationModel.maskAt mask q.1 q.2 = true ∧
      SegmentationModel.Adjacent (x, y) q := by
  unfold SegmentationModel.pushNeighbors at hq
  simp only [List.mem_filterMap, List.mem_cons, List.not_mem_nil, or_false] at hq
  obtain ⟨d, hd, hfd⟩ := hq
  rcases hd with rfl | rfl | rfl | rfl <;>
    (dsimp only at hfd
     split_ifs at hfd with h1 h2 <;>
       first
         | exact Option.noConfusion hfd
         | (injection hfd with hfd
            subst hfd
            refine ⟨h2.2.2.1, ?_⟩
            unfold SegmentationModel.Adjacent
            dsimp only
            omega))

theorem floodFill_spec (mask : List (List Bool)) (seed : ℕ × ℕ)
    (visited : List (List Bool)) (stack : List (ℕ × ℕ)) (acc : List (ℕ × ℕ)) :
    (∀ p ∈ stack, SegmentationModel.Reach mask seed p) →
    (∀ p ∈ acc, SegmentationModel.Reach mask seed p) →
    (∀ p ∈ acc, SegmentationModel.visAt visited p.1 p.2 = true) →
    acc.Nodup →
    (∀ p ∈ (SegmentationModel.floodFill mask visited stack acc).2,
      SegmentationModel.Reach mask seed p) ∧
    (SegmentationModel.floodFill mask visited stack acc).2.Nodup := by
  induction visited, stack, acc using SegmentationModel.floodFill.induct mask with
  | case1 visited acc =>
    intro _ ha _ hnd
    rw [SegmentationModel.floodFill]
    exact ⟨ha, hnd⟩
  | case2 visited acc x y rest h ih =>
    intro hs ha hv hnd
    rw [SegmentationModel.floodFill]
    dsimp only
    rw [dif_pos h]
    exact ih (fun p hp => hs p (List.mem_cons_of_mem _ hp)) ha hv hnd
  | case3 visited acc x y rest h visited2 ih =>
    intro hs ha hv hnd
    rw [SegmentationModel.floodFill]
    dsimp only
    rw [dif_neg h]
    apply ih
    · intro p hp
      rcases List.mem_append.mp hp with hp | hp
      · rw [List.mem_reverse] at hp
        obtain ⟨hm, hadj⟩ := pushNeighbors_mem _ _ _ _ _ hp
        exact SegmentationModel.Reach.step _ _
          (hs _ (List.mem_cons_self _ _)) hadj hm
      · exact hs p (List.mem_cons_of_mem _ hp)
    · intro p hp
      rcases List.mem_append.mp hp with hp | hp
      · exact ha p hp
      · simp only [List.mem_singleton] at hp
        subst hp
        exact hs _ (List.mem_cons_self _ _)
    · intro p hp
      rcases List.mem_append.mp hp with hp | hp
      · exact visAt_setVisited_mono _ _ _ _ _ (hv p hp)
      · simp only [List.mem_singleton] at hp
        subst hp
        exact visAt_setVisited_self _ _ _
    · rw [List.nodup_append]
      refine ⟨hnd, List.nodup_singleton _, ?_⟩
      intro p hp hp2
      simp only [List.mem_singleton] at hp2
      subst hp2
      exact absurd (hv _ hp) h

theorem append_head_closed (b : List (ℚ × ℚ)) (hb : b ≠ []) :
    (b ++ [b.headD (0, 0)]).head? = (b ++ [b.headD (0, 0)]).getLast? := by
  obtain ⟨a, b2, rfl⟩ := List.exists_cons_of_ne_nil hb
  rw [List.headD_cons, List.getLast?_concat]
  rfl

theorem trace_polygon_none_of_small (mask visited : List (List Bool))
    (sx sy : ℕ) (gt : GeoTransform)
    (hseed : SegmentationModel.maskAt mask sx sy = true)
    (L : List (ℕ × ℕ))
    (hL : ∀ p, SegmentationModel.Reach mask (sx, sy) p → p ∈ L)
    (hlen : L.length < 3) :
    (SegmentationModel.trace_polygon mask visited sx sy gt).2 = none := by
  obtain ⟨hreach, hnd⟩ := floodFill_spec mask (sx, sy) visited [(sx, sy)] []
    (by
      intro p hp
      simp only [List.mem_singleton] at hp
      subst hp
      exact SegmentationModel.Reach.refl hseed)
    (by simp) (by simp) List.nodup_nil
  have hsub : (SegmentationModel.floodFill mask visited [(sx, sy)] []).2 ⊆ L :=
    fun p hp => hL p (hreach p hp)
  have hle := (hnd.subperm hsub).length_le
  unfold SegmentationModel.trace_polygon
  dsimp only
  rw [if_neg (by simp only [List.length_map]; omega)]

theorem trace_polygon_some_closed (mask visited : List (List Bool))
    (sx sy : ℕ) (gt : GeoTransform) (visited2 : List (List Bool))
    (poly : GeoPolygon)
    (h : SegmentationModel.trace_polygon mask visited sx sy gt
      = (visited2, some poly)) :
    ∃ ring, poly.coordinates = [ring] ∧ 4 ≤ ring.length ∧
      ring.head? = ring.getLast? := by
  unfold SegmentationModel.trace_polygon at h
  dsimp only at h
  split_ifs at h with hlen
  · rw [Prod.mk.injEq] at h
    obtain ⟨h1, h2⟩ := h
    injection h2 with h2
    subst h2
    refine ⟨_, rfl, ?_, ?_⟩
    · simp only [List.length_append, List.length_cons, List.length_nil]
      omega
    · refine append_head_closed _ ?_
      intro h0
      rw [h0] at hlen
      simp at hlen
  · rw [Prod.mk.injEq] at h
    exact Option.noConfusion h.2

theorem polyLoop_closed (mask : List (List Bool)) (gt : GeoTransform)
    (cells : List (ℕ × ℕ)) :
    ∀ visited acc,
      (∀ poly ∈ acc, ∃ ring, poly.coordinates = [ring] ∧ 4 ≤ ring.length ∧
        ring.head? = ring.getLast?) →
      ∀ poly ∈ SegmentationModel.polyLoop mask gt cells visited acc,
        ∃ ring, poly.coordinates = [ring] ∧ 4 ≤ ring.length ∧
          ring.head? = ring.getLast? := by
  induction cells with
  | nil =>
    intro visited acc hacc
    rw [SegmentationModel.polyLoop]
    exact hacc
  | cons c rest ih =>
    intro visited acc hacc
    obtain ⟨x, y⟩ := c
    rw [SegmentationModel.polyLoop]
    split_ifs with hc
    · rcases htr : SegmentationModel.trace_polygon mask visited x y gt
        with ⟨vis2, po⟩
      cases po with
      | some polygon =>
        dsimp only
        intro poly hpoly
        refine ih vis2 (acc ++ [polygon]) ?_ poly hpoly
        intro q hq
        rcases List.mem_append.mp hq with hq | hq
        · exact hacc q hq
        · simp only [List.mem_singleton] at hq
          subst hq
          exact trace_polygon_some_closed _ _ _ _ _ _ _ htr
      | none =>
        dsimp only
        exact ih vis2 acc hacc
    · exact ih visited acc hacc

theorem mask_to_polygons_closed (cm : ClassMask) (gt : GeoTransform) :
    ∀ poly ∈ SegmentationModel.mask_to_polygons cm gt,
      ∃ ring, poly.coordinates = [ring] ∧ 4 ≤ ring.length ∧
        ring.head? = ring.getLast? := by
  unfold SegmentationModel.mask_to_polygons
  exact polyLoop_closed _ _ _ _ _ (by simp)


theorem headD_eq_getD_zero {α : Type} (l : List α) (d : α) :
    l.headD d = l.getD 0 d := by
  cases l <;> rfl

theorem getD_mem_of_lt {α : Type} (l : List α) (d : α) {n : ℕ}
    (h : n < l.length) : l.getD n d ∈ l := by
  induction l generalizing n with
  | nil => simp at h
  | cons a as ih =>
    cases n with
    | zero => simp
    | succ n => exact List.mem_cons_of_mem _ (ih (by simpa using h))

theorem maskAt_bounds (mask : List (List Bool)) (x y : ℕ)
    (h : SegmentationModel.maskAt mask x y = true) :
    y < mask.length ∧ x < (mask.getD y []).length := by
  unfold SegmentationModel.maskAt at h
  constructor
  · by_contra hy
    have hd : mask.getD y [] = [] := List.getD_eq_default _ _ (by omega)
    rw [hd] at h
    simp at h
  · by_contra hx
    have hd : (mask.getD y []).getD x false = false :=
      List.getD_eq_default _ _ (by omega)
    rw [hd] at h
    exact Bool.noConfusion h

theorem adjacent_symm {p q : ℕ × ℕ} (h : SegmentationModel.Adjacent p q) :
    SegmentationModel.Adjacent q p := by
  unfold SegmentationModel.Adjacent at *
  omega

theorem reach_target_true {mask : List (List Bool)} {seed p : ℕ × ℕ}
    (h : SegmentationModel.Reach mask seed p) :
    SegmentationModel.maskAt mask p.1 p.2 = true := by
  induction h with
  | refl hq => exact hq
  | step q r hreach hadj hmask ih => exact hmask

theorem reach_source_true {mask : List (List Bool)} {seed p : ℕ × ℕ}
    (h : SegmentationModel.Reach mask seed p) :
    SegmentationModel.maskAt mask seed.1 seed.2 = true := by
  induction h with
  | refl hq => exact hq
  | step q r hreach hadj hmask ih => exact ih

theorem reach_trans {mask : List (List Bool)} {p q r : ℕ × ℕ}
    (h1 : SegmentationModel.Reach mask p q)
    (h2 : SegmentationModel.Reach mask q r) :
    SegmentationModel.Reach mask p r := by
  induction h2 with
  | refl _ => exact h1
  | step s t hreach hadj hmask ih => exact .step s t ih hadj hmask

theorem reach_symm {mask : List (List Bool)} {p q : ℕ × ℕ}
    (h : SegmentationModel.Reach mask p q) :
    SegmentationModel.Reach mask q p := by
  induction h with
  | refl hq => exact .refl hq
  | step s t hreach hadj hmask ih =>
    exact reach_trans
      (.step t s (.refl hmask) (adjacent_symm hadj) (reach_target_true hreach)) ih

theorem replicate_getD_lt {α : Type} (x d : α) :
    ∀ (n m : ℕ), m < n → (List.replicate n x).getD m d = x := by
  intro n
  induction n with
  | zero => intro m hm; omega
  | succ n ih =>
    intro m hm
    cases m with
    | zero => rfl
    | succ m => exact ih m (by omega)

theorem visAt_replicate_false (hh ww a b : ℕ) (ha : a < ww) (hb : b < hh) :
    SegmentationModel.visAt
      (List.replicate hh (List.replicate ww false)) a b = false := by
  unfold SegmentationModel.visAt
  rw [replicate_getD_lt _ _ _ _ hb, replicate_getD_lt _ _ _ _ ha]

theorem grid_mem (w h x y : ℕ) (hx : x < w) (hy : y < h) :
    (x, y) ∈ (List.range h).flatMap fun b => (List.range w).map fun a => (a, b) := by
  simp only [List.mem_flatMap, List.mem_map, List.mem_range]
  exact ⟨y, hy, x, hx, rfl⟩

theorem visAt_setVisited_cases (visited : List (List Bool)) (x y a b : ℕ)
    (h : SegmentationModel.visAt
      (SegmentationModel.setVisited visited x y) a b = true) :
    SegmentationModel.visAt visited a b = true ∨ (a = x ∧ b = y) := by
  by_cases hb : b = y
  · by_cases ha : a = x
    · exact Or.inr ⟨ha, hb⟩
    · left
      subst hb
      unfold SegmentationModel.visAt SegmentationModel.setVisited at h
      unfold SegmentationModel.visAt
      rw [getD_set_main] at h
      split_ifs at h with hlen
      · rw [getD_set_of_ne _ _ _ _ _ ha] at h
        exact h
      · have hd : visited.getD b [] = [] := List.getD_eq_default _ _ (by omega)
        rw [hd]
        exact h
  · left
    unfold SegmentationModel.visAt SegmentationModel.setVisited at h
    unfold SegmentationModel.visAt
    rw [getD_set_of_ne _ _ _ _ _ hb] at h
    exact h

theorem pushNeighbors_complete (mask visited : List (List Bool)) (x y : ℕ)
    (q : ℕ × ℕ) (hadj : SegmentationModel.Adjacent (x, y) q)
    (hm : SegmentationModel.maskAt mask q.1 q.2 = true)
    (hrect : ∀ row ∈ mask, row.length = (mask.headD []).length)
    (hv : SegmentationModel.visAt visited q.1 q.2 = false) :
    q ∈ SegmentationModel.pushNeighbors mask visited x y := by
  obtain ⟨a, b⟩ := q
  obtain ⟨hy, hx⟩ := maskAt_bounds mask a b hm
  have hw : a < (mask.getD 0 []).length := by
    have hmem : mask.getD b [] ∈ mask := getD_mem_of_lt _ _ hy
    have hlen := hrect _ hmem
    rw [headD_eq_getD_zero] at hlen
    omega
  unfold SegmentationModel.pushNeighbors
  rw [List.mem_filterMap]
  unfold SegmentationModel.Adjacent at hadj
  dsimp only at hadj
  rcases hadj with ⟨h1, h2 | h2⟩ | ⟨h1, h2 | h2⟩
  · refine ⟨(0, -1), by simp, ?_⟩
    dsimp only
    have e1 : ((x : ℤ) + 0).toNat = a := by omega
    have e2 : ((y : ℤ) + -1).toNat = b := by omega
    rw [e1, e2, if_pos ⟨by omega, by omega⟩, if_pos ⟨hy, hw, hm, hv⟩]
  · refine ⟨(0, 1), by simp, ?_⟩
    dsimp only
    have e1 : ((x : ℤ) + 0).toNat = a := by omega
    have e2 : ((y : ℤ) + 1).toNat = b := by omega
    rw [e1, e2, if_pos ⟨by omega, by omega⟩, if_pos ⟨hy, hw, hm, hv⟩]
  · refine ⟨(-1, 0), by simp, ?_⟩
    dsimp only
    have e1 : ((x : ℤ) + -1).toNat = a := by omega
    have e2 : ((y : ℤ) + 0).toNat = b := by omega
    rw [e1, e2, if_pos ⟨by omega, by omega⟩, if_pos ⟨hy, hw, hm, hv⟩]
  · refine ⟨(1, 0), by simp, ?_⟩
    dsimp only
    have e1 : ((x : ℤ) + 1).toNat = a := by omega
    have e2 : ((y : ℤ) + 0).toNat = b := by omega
    rw [e1, e2, if_pos ⟨by omega, by omega⟩, if_pos ⟨hy, hw, hm, hv⟩]

theorem floodFill_acc_subset (mask : List (List Bool)) :
    ∀ visited stack acc,
      acc ⊆ (SegmentationModel.floodFill mask visited stack acc).2 := by
  intro visited stack acc
  induction visited, stack, acc using SegmentationModel.floodFill.induct mask with
  | case1 visited acc =>
    rw [SegmentationModel.floodFill]
    exact fun _ hp => hp
  | case2 visited acc x y rest h ih =>
    rw [SegmentationModel.floodFill]
    dsimp only
    rw [dif_pos h]
    exact ih
  | case3 visited acc x y rest h =>
    rename_i visited2 ih
    rw [SegmentationModel.floodFill]
    dsimp only
    rw [dif_neg h]
    exact (List.subset_append_left _ _).trans ih

theorem floodFill_vis_mono (mask : List (List Bool)) :
    ∀ visited stack acc (a b : ℕ),
      SegmentationModel.visAt visited a b = true →
      SegmentationModel.visAt
        (SegmentationModel.floodFill mask visited stack acc).1 a b = true := by
  intro visited stack acc
  induction visited, stack, acc using SegmentationModel.floodFill.induct mask with
  | case1 visited acc =>
    intro a b hab
    rw [SegmentationModel.floodFill]
    exact hab
  | case2 visited acc x y rest h ih =>
    intro a b hab
    rw [SegmentationModel.floodFill]
    dsimp only
    rw [dif_pos h]
    exact ih a b hab
  | case3 visited acc x y rest h =>
    rename_i visited2 ih
    intro a b hab
    rw [SegmentationModel.floodFill]
    dsimp only
    rw [dif_neg h]
    exact ih a b (visAt_setVisited_mono _ _ _ _ _ hab)

theorem floodFill_vis_new (mask : List (List Bool)) :
    ∀ visited stack acc (a b : ℕ),
      SegmentationModel.visAt
        (SegmentationModel.floodFill mask visited stack acc).1 a b = true →
      SegmentationModel.visAt visited a b = true ∨
        (a, b) ∈ (SegmentationModel.floodFill mask visited stack acc).2 := by
  intro visited stack acc
  induction visited, stack, acc using SegmentationModel.floodFill.induct mask with
  | case1 visited acc =>
    intro a b hab
    rw [SegmentationModel.floodFill] at hab ⊢
    exact Or.inl hab
  | case2 visited acc x y rest h ih =>
    intro a b hab
    rw [SegmentationModel.floodFill] at hab ⊢
    dsimp only at hab ⊢
    rw [dif_pos h] at hab ⊢
    exact ih a b hab
  | case3 visited acc x y rest h =>
    rename_i visited2 ih
    intro a b hab
    rw [SegmentationModel.floodFill] at hab ⊢
    dsimp only at hab ⊢
    rw [dif_neg h] at hab ⊢
    rcases ih a b hab with h2 | h2
    · rcases visAt_setVisited_cases _ _ _ _ _ h2 with h3 | h3
      · exact Or.inl h3
      · refine Or.inr (floodFill_acc_subset mask _ _ _ ?_)
        rw [h3.1, h3.2]
        exact List.mem_append_right _ (List.mem_singleton.mpr rfl)
    · exact Or.inr h2

theorem floodFill_stack_visited (mask : List (List Bool)) :
    ∀ visited stack acc, ∀ p ∈ stack,
      SegmentationModel.visAt
        (SegmentationModel.floodFill mask visited stack acc).1 p.1 p.2 = true := by
  intro visited stack acc
  induction visited, stack, acc using SegmentationModel.floodFill.induct mask with
  | case1 visited acc =>
    intro p hp
    simp at hp
  | case2 visited acc x y rest h ih =>
    intro p hp
    rw [SegmentationModel.floodFill]
    dsimp only
    rw [dif_pos h]
    rcases List.mem_cons.mp hp with rfl | hp
    · exact floodFill_vis_mono mask visited rest acc x y h
    · exact ih p hp
  | case3 visited acc x y rest h =>
    rename_i visited2 ih
    intro p hp
    rw [SegmentationModel.floodFill]
    dsimp only
    rw [dif_neg h]
    rcases List.mem_cons.mp hp with rfl | hp
    · exact floodFill_vis_mono mask _ _ _ x y (visAt_setVisited_self visited x y)
    · exact ih p (List.mem_append_right _ hp)

theorem floodFill_closure (mask : List (List Bool))
    (hrect : ∀ row ∈ mask, row.length = (mask.headD []).length) :
    ∀ visited stack acc,
      (∀ a ∈ acc, ∀ q, SegmentationModel.Adjacent a q →
        SegmentationModel.maskAt mask q.1 q.2 = true →
        (SegmentationModel.visAt visited q.1 q.2 = true ∨ q ∈ stack)) →
      ∀ a ∈ (SegmentationModel.floodFill mask visited stack acc).2,
        ∀ q, SegmentationModel.Adjacent a q →
          SegmentationModel.maskAt mask q.1 q.2 = true →
          SegmentationModel.visAt
            (SegmentationModel.floodFill mask visited stack acc).1 q.1 q.2
              = true := by
  intro visited stack acc
  induction visited, stack, acc using SegmentationModel.floodFill.induct mask with
  | case1 visited acc =>
    intro hinv a ha q hadj hq
    rw [SegmentationModel.floodFill] at ha ⊢
    rcases hinv a ha q hadj hq with h | h
    · exact h
    · simp at h
  | case2 visited acc x y rest h ih =>
    intro hinv a ha q hadj hq
    rw [SegmentationModel.floodFill] at ha ⊢
    dsimp only at ha ⊢
    rw [dif_pos h] at ha ⊢
    refine ih ?_ a ha q hadj hq
    intro a2 ha2 q2 hadj2 hq2
    rcases hinv a2 ha2 q2 hadj2 hq2 with h2 | h2
    · exact Or.inl h2
    · rcases List.mem_cons.mp h2 with rfl | h3
      · exact Or.inl h
      · exact Or.inr h3
  | case3 visited acc x y rest h =>
    rename_i visited2 ih
    intro hinv a ha q hadj hq
    rw [SegmentationModel.floodFill] at ha ⊢
    dsimp only at ha ⊢
    rw [dif_neg h] at ha ⊢
    refine ih ?_ a ha q hadj hq
    intro a2 ha2 q2 hadj2 hq2
    rcases List.mem_append.mp ha2 with ha2 | ha2
    · rcases hinv a2 ha2 q2 hadj2 hq2 with h2 | h2
      · exact Or.inl (visAt_setVisited_mono _ _ _ _ _ h2)
      · rcases List.mem_cons.mp h2 with rfl | h3
        · exact Or.inl (visAt_setVisited_self _ _ _)
        · exact Or.inr (List.mem_append_right _ h3)
    · simp only [List.mem_singleton] at ha2
      subst ha2
      by_cases hv : SegmentationModel.visAt
          (SegmentationModel.setVisited visited x y) q2.1 q2.2 = true
      · exact Or.inl hv
      · refine Or.inr (List.mem_append_left _ ?_)
        rw [List.mem_reverse]
        exact pushNeighbors_complete mask _ x y q2 hadj2 hq2 hrect
          (eq_false_of_ne_true hv)

theorem floodFill_reach_subset (mask : List (List Bool))
    (hrect : ∀ row ∈ mask, row.length = (mask.headD []).length)
    (visited : List (List Bool)) (seed : ℕ × ℕ)
    (hdisj : ∀ p, SegmentationModel.Reach mask seed p →
      SegmentationModel.visAt visited p.1 p.2 = false) :
    ∀ p, SegmentationModel.Reach mask seed p →
      p ∈ (SegmentationModel.floodFill mask visited [seed] []).2 := by
  intro p hp
  induction hp with
  | refl hq =>
    have h1 := floodFill_stack_visited mask visited [seed] [] seed (by simp)
    rcases floodFill_vis_new mask visited [seed] [] seed.1 seed.2 h1 with h | h
    · rw [hdisj seed (SegmentationModel.Reach.refl hq)] at h
      exact absurd h (by simp)
    · simpa using h
  | step q r hreach hadj hmask ih =>
    have hcl := floodFill_closure mask hrect visited [seed] [] (by simp)
      q ih r hadj hmask
    rcases floodFill_vis_new mask visited [seed] [] r.1 r.2 hcl with h | h
    · rw [hdisj r (SegmentationModel.Reach.step q r hreach hadj hmask)] at h
      exact absurd h (by simp)
    · simpa using h

theorem trace_polygon_some_of_big (mask visited : List (List Bool))
    (sx sy : ℕ) (gt : GeoTransform)
    (hrect : ∀ row ∈ mask, row.length = (mask.headD []).length)
    (hdisj : ∀ p, SegmentationModel.Reach mask (sx, sy) p →
      SegmentationModel.visAt visited p.1 p.2 = false)
    (L : List (ℕ × ℕ)) (hLnd : L.Nodup)
    (hLreach : ∀ p ∈ L, SegmentationModel.Reach mask (sx, sy) p)
    (hlen : 3 ≤ L.length) :
    ∃ poly, (SegmentationModel.trace_polygon mask visited sx sy gt).2
        = some poly ∧
      ∃ ring, poly.coordinates = [ring] ∧ 4 ≤ ring.length ∧
        ring.head? = ring.getLast? := by
  have hsub : L ⊆ (SegmentationModel.floodFill mask visited [(sx, sy)] []).2 :=
    fun p hp =>
      floodFill_reach_subset mask hrect visited (sx, sy) hdisj p (hLreach p hp)
  have hge := (hLnd.subperm hsub).length_le
  unfold SegmentationModel.trace_polygon
  dsimp only
  rw [if_pos (by simp only [List.length_map]; omega)]
  refine ⟨_, rfl, _, rfl, ?_, ?_⟩
  · simp only [List.length_append, List.length_map, List.length_cons,
      List.length_nil]
    omega
  · refine append_head_closed _ ?_
    intro h0
    have := congrArg List.length h0
    simp only [List.length_map, List.length_nil] at this
    omega

theorem trace_polygon_vis_new (mask visited : List (List Bool)) (sx sy : ℕ)
    (gt : GeoTransform)
    (hseed : SegmentationModel.maskAt mask sx sy = true) (a b : ℕ)
    (h : SegmentationModel.visAt
      (SegmentationModel.trace_polygon mask visited sx sy gt).1 a b = true) :
    SegmentationModel.visAt visited a b = true ∨
      SegmentationModel.Reach mask (sx, sy) (a, b) := by
  have h1 : (SegmentationModel.trace_polygon mask visited sx sy gt).1
      = (SegmentationModel.floodFill mask visited [(sx, sy)] []).1 := by
    unfold SegmentationModel.trace_polygon
    dsimp only
    split_ifs <;> rfl
  rw [h1] at h
  rcases floodFill_vis_new mask visited [(sx, sy)] [] a b h with h2 | h2
  · exact Or.inl h2
  · refine Or.inr ((floodFill_spec mask (sx, sy) visited [(sx, sy)] []
      ?_ (by simp) (by simp) List.nodup_nil).1 _ h2)
    intro p hp
    simp only [List.mem_singleton] at hp
    subst hp
    exact SegmentationModel.Reach.refl hseed

theorem polyLoop_acc_subset (mask : List (List Bool)) (gt : GeoTransform)
    (cells : List (ℕ × ℕ)) :
    ∀ visited acc, acc ⊆ SegmentationModel.polyLoop mask gt cells visited acc := by
  induction cells with
  | nil =>
    intro visited acc
    rw [SegmentationModel.polyLoop]
    exact fun _ hp => hp
  | cons c rest ih =>
    intro visited acc
    obtain ⟨x, y⟩ := c
    rw [SegmentationModel.polyLoop]
    split_ifs with hc
    · rcases htr : SegmentationModel.trace_polygon mask visited x y gt
        with ⟨vis2, po⟩
      cases po with
      | some polygon =>
        dsimp only
        exact (List.subset_append_left _ _).trans (ih vis2 (acc ++ [polygon]))
      | none =>
        dsimp only
        exact ih vis2 acc
    · exact ih visited acc

theorem polyLoop_emits (mask : List (List Bool)) (gt : GeoTransform)
    (hrect : ∀ row ∈ mask, row.length = (mask.headD []).length)
    (seed : ℕ × ℕ) (L : List (ℕ × ℕ)) (hLnd : L.Nodup)
    (hLreach : ∀ p ∈ L, SegmentationModel.Reach mask seed p)
    (hlen : 3 ≤ L.length) :
    ∀ (cells : List (ℕ × ℕ)) (visited : List (List Bool))
      (acc : List GeoPolygon),
      (∀ p, SegmentationModel.Reach mask seed p →
        SegmentationModel.visAt visited p.1 p.2 = false) →
      (∃ c ∈ cells, SegmentationModel.Reach mask seed c) →
      ∃ poly ∈ SegmentationModel.polyLoop mask gt cells visited acc,
        ∃ ring, poly.coordinates = [ring] ∧ 4 ≤ ring.length ∧
          ring.head? = ring.getLast? := by
  intro cells
  induction cells with
  | nil =>
    intro visited acc hdisj hex
    obtain ⟨c, hc, _⟩ := hex
    simp at hc
  | cons c0 rest ih =>
    intro visited acc hdisj hex
    obtain ⟨x, y⟩ := c0
    rw [SegmentationModel.polyLoop]
    by_cases hxy : SegmentationModel.Reach mask seed (x, y)
    · have hmxy : SegmentationModel.maskAt mask x y = true :=
        reach_target_true hxy
      have hvxy : SegmentationModel.visAt visited x y = false := hdisj (x, y) hxy
      rw [if_pos ⟨hmxy, hvxy⟩]
      have hdisj2 : ∀ p, SegmentationModel.Reach mask (x, y) p →
          SegmentationModel.visAt visited p.1 p.2 = false :=
        fun p hp => hdisj p (reach_trans hxy hp)
      have hLreach2 : ∀ p ∈ L, SegmentationModel.Reach mask (x, y) p :=
        fun p hp => reach_trans (reach_symm hxy) (hLreach p hp)
      obtain ⟨poly, hpoly, hring⟩ := trace_polygon_some_of_big mask visited x y
        gt hrect hdisj2 L hLnd hLreach2 hlen
      rcases htr : SegmentationModel.trace_polygon mask visited x y gt
        with ⟨vis2, po⟩
      rw [htr] at hpoly
      dsimp only at hpoly
      subst hpoly
      dsimp only
      exact ⟨poly, polyLoop_acc_subset mask gt rest vis2 (acc ++ [poly])
        (List.mem_append_right _ (List.mem_singleton.mpr rfl)), hring⟩
    · obtain ⟨c, hc, hcreach⟩ := hex
      have hcrest : c ∈ rest := by
        rcases List.mem_cons.mp hc with rfl | hmem
        · exact absurd hcreach hxy
        · exact hmem
      split_ifs with hcond
      · have hdisj2 : ∀ p, SegmentationModel.Reach mask seed p →
            SegmentationModel.visAt
              (SegmentationModel.trace_polygon mask visited x y gt).1 p.1 p.2
                = false := by
          intro p hp
          cases hval : SegmentationModel.visAt
              (SegmentationModel.trace_polygon mask visited x y gt).1 p.1 p.2 with
          | false => rfl
          | true =>
            exfalso
            rcases trace_polygon_vis_new mask visited x y gt hcond.1 p.1 p.2
                hval with h2 | h2
            · rw [hdisj p hp] at h2
              exact Bool.noConfusion h2
            · rw [Prod.mk.eta] at h2
              exact hxy (reach_trans hp (reach_symm h2))
        rcases htr : SegmentationModel.trace_polygon mask visited x y gt
          with ⟨vis2, po⟩
        rw [htr] at hdisj2
        cases po with
        | some polygon =>
          dsimp only
          exact ih vis2 (acc ++ [polygon]) hdisj2 ⟨c, hcrest, hcreach⟩
        | none =>
          dsimp only
          exact ih vis2 acc hdisj2 ⟨c, hcrest, hcreach⟩
      · exact ih visited acc hdisj ⟨c, hcrest, hcreach⟩

theorem mask_to_polygons_emits (cm : ClassMask) (gt : GeoTransform)
    (hrect : ∀ row ∈ cm.mask, row.length = (cm.mask.headD []).length)
    (seed : ℕ × ℕ) (L : List (ℕ × ℕ)) (hLnd : L.Nodup)
    (hLreach : ∀ p ∈ L, SegmentationModel.Reach cm.mask seed p)
    (hlen : 3 ≤ L.length) :
    ∃ poly ∈ SegmentationModel.mask_to_polygons cm gt,
      ∃ ring, poly.coordinates = [ring] ∧ 4 ≤ ring.length ∧
        ring.head? = ring.getLast? := by
  have hL0 : ∃ p, p ∈ L := by
    cases L with
    | nil => simp at hlen
    | cons p t => exact ⟨p, by simp⟩
  obtain ⟨p0, hp0⟩ := hL0
  have hseedtrue : SegmentationModel.maskAt cm.mask seed.1 seed.2 = true :=
    reach_source_true (hLreach p0 hp0)
  have hwidth : ∀ q : ℕ × ℕ, SegmentationModel.maskAt cm.mask q.1 q.2 = true →
      q.2 < cm.mask.length ∧ q.1 < (cm.mask.headD []).length := by
    intro q hq
    obtain ⟨h1, h2⟩ := maskAt_bounds cm.mask q.1 q.2 hq
    refine ⟨h1, ?_⟩
    have hmem : cm.mask.getD q.2 [] ∈ cm.mask := getD_mem_of_lt _ _ h1
    have := hrect _ hmem
    omega
  unfold SegmentationModel.mask_to_polygons
  dsimp only
  apply polyLoop_emits cm.mask gt hrect seed L hLnd hLreach hlen
  · intro p hp
    obtain ⟨h1, h2⟩ := hwidth p (reach_target_true hp)
    exact visAt_replicate_false _ _ _ _ h2 h1
  · obtain ⟨h1, h2⟩ := hwidth seed hseedtrue
    refine ⟨seed, ?_, SegmentationModel.Reach.refl hseedtrue⟩
    have := grid_mem (cm.mask.headD []).length cm.mask.length seed.1 seed.2 h2 h1
    simpa using this
/-- C8: every polygon mask_to_polygons emits has exactly one ring, closed by
re-appending the first point (head equals last) and of length at least 4;
trace_polygon emits no polygon (and the functions are total, so no error)
from a seed whose 4-connected component has fewer than 3 pixels; conversely,
for every rectangular mask, every component holding at least 3 distinct
pixels (a Nodup list of pixels reachable from one seed) makes
mask_to_polygons emit a polygon with such a closed ring. Concretely, the 1x1
mask with one isolated true pixel yields zero polygons, while the 1x3
all-true mask yields exactly one polygon whose ring re-appends its first
point. -/
theorem C8_ring_closure_small_components :
    (∀ (cm : ClassMask) (gt : GeoTransform),
      ∀ poly ∈ SegmentationModel.mask_to_polygons cm gt,
        ∃ ring, poly.coordinates = [ring] ∧ 4 ≤ ring.length ∧
          ring.head? = ring.getLast?) ∧
    (∀ (mask visited : List (List Bool)) (sx sy : ℕ) (gt : GeoTransform),
      SegmentationModel.maskAt mask sx sy = true →
      ∀ L : List (ℕ × ℕ),
        (∀ p, SegmentationModel.Reach mask (sx, sy) p → p ∈ L) →
        L.length < 3 →
        (SegmentationModel.trace_polygon mask visited sx sy gt).2 = none) ∧
    (∀ (cm : ClassMask) (gt : GeoTransform),
      (∀ row ∈ cm.mask, row.length = (cm.mask.headD []).length) →
      ∀ (seed : ℕ × ℕ) (L : List (ℕ × ℕ)), L.Nodup →
        (∀ p ∈ L, SegmentationModel.Reach cm.mask seed p) →
        3 ≤ L.length →
        ∃ poly ∈ SegmentationModel.mask_to_polygons cm gt,
          ∃ ring, poly.coordinates = [ring] ∧ 4 ≤ ring.length ∧
            ring.head? = ring.getLast?) ∧
    SegmentationModel.mask_to_polygons ⟨1, "water", [[true]], 1⟩
      ⟨0, 0, 1, 1, 0, 0⟩ = [] ∧
    SegmentationModel.mask_to_polygons ⟨1, "rice", [[true, true, true]], 1⟩
      ⟨0, 0, 1, 1, 0, 0⟩ =
      [⟨[[(0, 0), (1, 0), (2, 0), (0, 0)]], "EPSG:4326"⟩] := by
  refine ⟨fun cm gt => mask_to_polygons_closed cm gt,
    fun mask visited sx sy gt hseed L hL hlen =>
      trace_polygon_none_of_small mask visited sx sy gt hseed L hL hlen,
    fun cm gt hrect seed L hLnd hLreach hlen =>
      mask_to_polygons_emits cm gt hrect seed L hLnd hLreach hlen, ?_, ?_⟩
  · have h1 : SegmentationModel.setVisited [[false]] 0 0 = [[true]] := by
      simp [SegmentationModel.setVisited]
    have h2 : SegmentationModel.pushNeighbors [[true]] [[true]] 0 0 = [] := by
      simp [SegmentationModel.pushNeighbors, SegmentationModel.visAt,
        SegmentationModel.maskAt]
    have hff : SegmentationModel.floodFill [[true]] [[false]] [(0, 0)] []
        = ([[true]], [(0, 0)]) := by
      rw [SegmentationModel.floodFill]
      dsimp only
      rw [dif_neg (by simp [SegmentationModel.visAt])]
      rw [h1, h2]
      simp only [List.reverse_nil, List.nil_append]
      rw [SegmentationModel.floodFill]
    simp [SegmentationModel.mask_to_polygons, SegmentationModel.polyLoop,
      SegmentationModel.trace_polygon, hff, SegmentationModel.maskAt,
      SegmentationModel.visAt, List.range_succ, -Prod.mk_zero_zero]
  · have hA : SegmentationModel.setVisited [[false, false, false]] 0 0
        = [[true, false, false]] := by
      simp [SegmentationModel.setVisited]
    have hpn1 : SegmentationModel.pushNeighbors [[true, true, true]]
        [[true, false, false]] 0 0 = [(1, 0)] := by
      simp [SegmentationModel.pushNeighbors, SegmentationModel.maskAt,
        SegmentationModel.visAt]
    have hB : SegmentationModel.setVisited [[true, false, false]] 1 0
        = [[true, true, false]] := by
      simp [SegmentationModel.setVisited]
    have hpn2 : SegmentationModel.pushNeighbors [[true, true, true]]
        [[true, true, false]] 1 0 = [(2, 0)] := by
      simp [SegmentationModel.pushNeighbors, SegmentationModel.maskAt,
        SegmentationModel.visAt]
    have hC : SegmentationModel.setVisited [[true, true, false]] 2 0
        = [[true, true, true]] := by
      simp [SegmentationModel.setVisited]
    have hpn3 : SegmentationModel.pushNeighbors [[true, true, true]]
        [[true, true, true]] 2 0 = [] := by
      simp [SegmentationModel.pushNeighbors, SegmentationModel.maskAt,
        SegmentationModel.visAt]
    have hff3 : SegmentationModel.floodFill [[true, true, true]]
        [[false, false, false]] [(0, 0)] []
        = ([[true, true, true]], [(0, 0), (1, 0), (2, 0)]) := by
      rw [SegmentationModel.floodFill]
      dsimp only
      rw [dif_neg (by simp [SegmentationModel.visAt])]
      rw [hA, hpn1]
      simp only [List.reverse_cons, List.reverse_nil, List.nil_append,
        List.append_nil, List.cons_append]
      rw [SegmentationModel.floodFill]
      dsimp only
      rw [dif_neg (by simp [SegmentationModel.visAt])]
      rw [hB, hpn2]
      simp only [List.reverse_cons, List.reverse_nil, List.nil_append,
        List.append_nil, List.cons_append]
      rw [SegmentationModel.floodFill]
      dsimp only
      rw [dif_neg (by simp [SegmentationModel.visAt])]
      rw [hC, hpn3]
      simp only [List.reverse_cons, List.reverse_nil, List.nil_append,
        List.append_nil, List.cons_append]
      rw [SegmentationModel.floodFill]
    simp [SegmentationModel.mask_to_polygons, SegmentationModel.polyLoop,
      SegmentationModel.trace_polygon, hff3, SegmentationModel.maskAt,
      SegmentationModel.visAt, List.range_succ, -Prod.mk_zero_zero,
      GeoTransform.pixel_to_coord]

/-- Witness for C8: the 1x1 isolated pixel emits nothing (exercising the
small-component hypotheses), and the 1x3 mask with a 3-pixel component
satisfies every emission hypothesis concretely and emits a closed polygon. -/
theorem C8_ring_closure_small_components_witness :
    (SegmentationModel.maskAt [[true]] 0 0 = true ∧
      (∀ p, SegmentationModel.Reach [[true]] (0, 0) p →
        p ∈ [((0 : ℕ), (0 : ℕ))]) ∧
      ([((0 : ℕ), (0 : ℕ))] : List (ℕ × ℕ)).length < 3 ∧
      (SegmentationModel.trace_polygon [[true]] [[false]] 0 0
        ⟨0, 0, 1, 1, 0, 0⟩).2 = none) ∧
    ((∀ row ∈ ([[true, true, true]] : List (List Bool)),
        row.length
          = (([[true, true, true]] : List (List Bool)).headD []).length) ∧
      ([((0 : ℕ), (0 : ℕ)), (1, 0), (2, 0)] : List (ℕ × ℕ)).Nodup ∧
      (∀ p ∈ ([((0 : ℕ), (0 : ℕ)), (1, 0), (2, 0)] : List (ℕ × ℕ)),
        SegmentationModel.Reach [[true, true, true]] (0, 0) p) ∧
      3 ≤ ([((0 : ℕ), (0 : ℕ)), (1, 0), (2, 0)] : List (ℕ × ℕ)).length ∧
      ∃ poly ∈ SegmentationModel.mask_to_polygons
          ⟨1, "rice", [[true, true, true]], 1⟩ ⟨0, 0, 1, 1, 0, 0⟩,
        ∃ ring, poly.coordinates = [ring] ∧ 4 ≤ ring.length ∧
          ring.head? = ring.getLast?) := by
  have hm : SegmentationModel.maskAt [[true]] 0 0 = true := rfl
  have hr : ∀ p, SegmentationModel.Reach [[true]] (0, 0) p →
      p ∈ [((0 : ℕ), (0 : ℕ))] := by
    intro p hp
    have hmp : SegmentationModel.maskAt [[true]] p.1 p.2 = true := by
      induction hp with
      | refl hq => exact hq
      | step q r hreach hadj hmask ih => exact hmask
    obtain ⟨a, b⟩ := p
    have hab : a = 0 ∧ b = 0 := by
      cases b with
      | zero =>
        cases a with
        | zero => exact ⟨rfl, rfl⟩
        | succ a => simp [SegmentationModel.maskAt] at hmp
      | succ b => simp [SegmentationModel.maskAt] at hmp
    simp [hab.1, hab.2]
  have hrect : ∀ row ∈ ([[true, true, true]] : List (List Bool)),
      row.length = (([[true, true, true]] : List (List Bool)).headD []).length := by
    decide
  have hm0 : SegmentationModel.maskAt [[true, true, true]] 0 0 = true := rfl
  have hm1 : SegmentationModel.maskAt [[true, true, true]] 1 0 = true := rfl
  have hm2 : SegmentationModel.maskAt [[true, true, true]] 2 0 = true := rfl
  have r0 : SegmentationModel.Reach [[true, true, true]] (0, 0) (0, 0) :=
    .refl hm0
  have r1 : SegmentationModel.Reach [[true, true, true]] (0, 0) (1, 0) :=
    .step _ _ r0 (by simp [SegmentationModel.Adjacent]) hm1
  have r2 : SegmentationModel.Reach [[true, true, true]] (0, 0) (2, 0) :=
    .step _ _ r1 (by simp [SegmentationModel.Adjacent]) hm2
  have hreach3 : ∀ p ∈ ([((0 : ℕ), (0 : ℕ)), (1, 0), (2, 0)] : List (ℕ × ℕ)),
      SegmentationModel.Reach [[true, true, true]] (0, 0) p := by
    intro p hp
    simp only [List.mem_cons, List.not_mem_nil, or_false] at hp
    rcases hp with rfl | rfl | rfl
    · exact r0
    · exact r1
    · exact r2
  refine ⟨⟨hm, hr, by simp,
    C8_ring_closure_small_components.2.1 [[true]] [[false]] 0 0
      ⟨0, 0, 1, 1, 0, 0⟩ hm [((0 : ℕ), (0 : ℕ))] hr (by simp)⟩,
    hrect, by decide, hreach3, by simp,
    C8_ring_closure_small_components.2.2.1
      ⟨1, "rice", [[true, true, true]], 1⟩ ⟨0, 0, 1, 1, 0, 0⟩ hrect (0, 0)
      [((0 : ℕ), (0 : ℕ)), (1, 0), (2, 0)] (by decide) hreach3 (by simp)⟩
